/-
Verification of the stacked immutable database, durability partitioner,
workspace filter and daemon command handling of the tldr code base.

Each Lean definition is a shallow embedding of the Python function of the
same name; the file it comes from is named in the doc comment.  Mutation is
rendered as functional update, Python `set`s as lists with membership
semantics, and the uuid4 identifiers the code generates are taken as
explicit parameters.
-/
import Mathlib

namespace TLDR

/-! Section: Stacked immutable DB (`src/tldr/stacked_db.py`) -/

/-- Python `Edge` from `stacked_db.py`: a call-graph edge with a unique id. -/
structure Edge where
  id : String
  src_file : String
  src_func : String
  dst_file : String
  dst_func : String
deriving DecidableEq, Repr

/-- Python `Edge.to_tuple` from `stacked_db.py`. -/
def Edge.to_tuple (e : Edge) : String × String × String × String :=
  (e.src_file, e.src_func, e.dst_file, e.dst_func)

/-- Python `ImmutableStack` from `stacked_db.py`.  The Python `parent` field is an
`Optional[ImmutableStack]`; the two constructors correspond to `parent is
None` and `parent` present.  `deletions` is a Python `set[str]`, modelled as
a list read only through membership.  `created_at` carries no claim-relevant
information and is omitted. -/
inductive ImmutableStack : Type where
  | root (id : String) (edges : List Edge) (deletions : List String)
  | child (id : String) (parent : ImmutableStack) (edges : List Edge)
      (deletions : List String)
deriving DecidableEq, Repr

/-- The stack's own `edges` field. -/
def ImmutableStack.edges : ImmutableStack → List Edge
  | .root _ es _ => es
  | .child _ _ es _ => es

/-- The stack's own `deletions` field. -/
def ImmutableStack.deletions : ImmutableStack → List String
  | .root _ _ ds => ds
  | .child _ _ _ ds => ds

/-- The stack's `parent` field (`None`/`Some`). -/
def ImmutableStack.parentStack : ImmutableStack → Option ImmutableStack
  | .root _ _ _ => none
  | .child _ p _ _ => some p

/-- Python `ImmutableStack.add_edge`: `self.edges.append(edge)` on the stack the
method is called on (functional update). -/
def ImmutableStack.add_edge : ImmutableStack → Edge → ImmutableStack
  | .root i es ds, e => .root i (es ++ [e]) ds
  | .child i p es ds, e => .child i p (es ++ [e]) ds

/-- Python `ImmutableStack.mark_deleted`: `self.deletions.add(edge_id)`. -/
def ImmutableStack.mark_deleted : ImmutableStack → String → ImmutableStack
  | .root i es ds, x => .root i es (ds ++ [x])
  | .child i p es ds, x => .child i p es (ds ++ [x])

/-- Python `ImmutableStack.get_all_edges(seen_deletions)`: accumulate
`all_deletions = seen_deletions | self.deletions`, keep the local edges whose
id is not in it, then recurse into the parent with the accumulated set.  The
Python default argument `seen_deletions=None` corresponds to passing `[]`. -/
def ImmutableStack.get_all_edges : ImmutableStack → List String → List Edge
  | .root _ es ds, seen =>
      let all_deletions := seen ++ ds
      es.filter (fun e => decide (e.id ∉ all_deletions))
  | .child _ p es ds, seen =>
      let all_deletions := seen ++ ds
      es.filter (fun e => decide (e.id ∉ all_deletions))
        ++ p.get_all_edges all_deletions

/-- Python `ImmutableStack.depth`. -/
def ImmutableStack.depth : ImmutableStack → Nat
  | .root _ _ _ => 1
  | .child _ p _ _ => 1 + p.depth

/-- Python `StackedDB` from `stacked_db.py`: holds the current (topmost) stack. -/
structure StackedDB where
  current : ImmutableStack
deriving DecidableEq, Repr

/-- Python `StackedDB.add_edge`: appends a fresh `Edge` to the current stack.  The
uuid the Python code generates is the `id` field of the supplied edge. -/
def StackedDB.add_edge (db : StackedDB) (e : Edge) : StackedDB :=
  ⟨db.current.add_edge e⟩

/-- Python `StackedDB.remove_edge`: marks the id deleted in the current stack. -/
def StackedDB.remove_edge (db : StackedDB) (edge_id : String) : StackedDB :=
  ⟨db.current.mark_deleted edge_id⟩

/-- Python `StackedDB.get_all_edges`: edges of the whole chain as tuples. -/
def StackedDB.get_all_edges (db : StackedDB) :
    List (String × String × String × String) :=
  (db.current.get_all_edges []).map Edge.to_tuple

/-- Python `StackedDB.fork`: a new DB whose fresh top stack has the caller's
current stack as parent (`uuid4` passed as `newId`). -/
def StackedDB.fork (db : StackedDB) (newId : String) : StackedDB :=
  ⟨.child newId db.current [] []⟩

/-- Python `StackedDB.rollback`: drop to the parent stack; at the root, return a
new empty `StackedDB` (whose fresh root uuid is `freshId`). -/
def StackedDB.rollback (db : StackedDB) (freshId : String) : StackedDB :=
  match db.current with
  | .root _ _ _ => ⟨.root freshId [] []⟩
  | .child _ p _ _ => ⟨p⟩

/-- Python `StackedDB.depth`. -/
def StackedDB.depth (db : StackedDB) : Nat :=
  db.current.depth

/-- Python `StackedDB.compact`: one fresh root stack holding the currently visible
edges, with no deletions. -/
def StackedDB.compact (db : StackedDB) (newId : String) : StackedDB :=
  ⟨.root newId (db.current.get_all_edges []) []⟩

/-- The visible-edge set exactly as the spec sentence words it:
`parent.get_all_edges \ self.deletions ∪ self.edges` applied recursively,
the root contributing its own edges.  Note that a stack's own `edges` are
not filtered through its own `deletions` here. -/
def claimEdgeSet : ImmutableStack → List Edge
  | .root _ es _ => es
  | .child _ p es ds =>
      (claimEdgeSet p).filter (fun e => decide (e.id ∉ ds)) ++ es

/-- The amended visible-edge set:
`(parent.get_all_edges ∪ self.edges) \ self.deletions` applied recursively,
so a stack's own deletions also shadow its own edges. -/
def amendedEdgeSet : ImmutableStack → List Edge
  | .root _ es ds => es.filter (fun e => decide (e.id ∉ ds))
  | .child _ p es ds =>
      ((amendedEdgeSet p) ++ es).filter (fun e => decide (e.id ∉ ds))

/-- A single write step on a `StackedDB`, as used when exercising a fork. -/
inductive DBOp : Type where
  | add (e : Edge)
  | remove (edge_id : String)
deriving DecidableEq, Repr

/-- Apply one `DBOp` via the corresponding `StackedDB` method. -/
def StackedDB.applyOp (db : StackedDB) : DBOp → StackedDB
  | .add e => db.add_edge e
  | .remove x => db.remove_edge x

/-- Apply a sequence of write operations in order. -/
def StackedDB.applyOps (db : StackedDB) (ops : List DBOp) : StackedDB :=
  ops.foldl StackedDB.applyOp db

/-- Membership in `get_all_edges` with an accumulator of already-seen
deletions: an edge is returned iff it is in the amended visible set and its
id is not among the accumulated deletions. -/
lemma get_all_edges_mem (s : ImmutableStack) (seen : List String) (e : Edge) :
    e ∈ s.get_all_edges seen ↔ e ∈ amendedEdgeSet s ∧ e.id ∉ seen := by
  induction s generalizing seen with
  | root i es ds =>
      simp only [ImmutableStack.get_all_edges, amendedEdgeSet, List.mem_filter,
        List.mem_append, decide_eq_true_eq]
      tauto
  | child i p es ds ih =>
      simp only [ImmutableStack.get_all_edges, amendedEdgeSet, List.mem_filter,
        List.mem_append, decide_eq_true_eq, ih]
      tauto

/-- C1 (counterexample): the claimed recursive equation
`parent.get_all_edges \ self.deletions ∪ self.edges` (root contributing its
own edges) disagrees with the code on a root stack that both defines edge
id `"a"` and carries `"a"` in its own deletions: the equation yields the
edge, `get_all_edges` does not. -/
theorem claim1_counterexample :
    Edge.mk "a" "f.py" "f" "g.py" "g"
        ∈ claimEdgeSet (.root "r" [Edge.mk "a" "f.py" "f" "g.py" "g"] ["a"])
    ∧ Edge.mk "a" "f.py" "f" "g.py" "g"
        ∉ (ImmutableStack.root "r" [Edge.mk "a" "f.py" "f" "g.py" "g"] ["a"]).get_all_edges [] := by
  decide

/-- C1 (amended): `get_all_edges` returns exactly the set given by the
recursive equation `(parent.get_all_edges ∪ self.edges) \ self.deletions`
(the root contributing its own edges minus its own deletions); walking from
top to root, an edge id present in any descendant's deletions is excluded
even if the edge is defined in the root. -/
theorem claim1_get_all_edges_amended (s : ImmutableStack) (e : Edge) :
    e ∈ s.get_all_edges [] ↔ e ∈ amendedEdgeSet s := by
  simpa using get_all_edges_mem s [] e

/-- C2: `compact()` returns a DB with a single root stack (depth 1, no
parent, no deletions) whose `get_all_edges()` has the same tuples as the
original DB's. -/
theorem claim2_compact (db : StackedDB) (newId : String) :
    (∀ t, t ∈ (db.compact newId).get_all_edges ↔ t ∈ db.get_all_edges)
    ∧ (db.compact newId).depth = 1
    ∧ (db.compact newId).current.deletions = []
    ∧ (db.compact newId).current.parentStack = none := by
  refine ⟨fun t => ?_, rfl, rfl, rfl⟩
  simp [StackedDB.get_all_edges, StackedDB.compact, ImmutableStack.get_all_edges]

/-- C3: `rollback()` returns a DB whose top stack is the parent of the
current top; at the root it returns a fresh empty DB (never an error); and
the concrete scenario: a DB holding exactly edge `A`, forked, edge `B`
added to the fork, then rolled back, shows exactly `{A}`. -/
theorem claim3_rollback (db : StackedDB) (freshId : String) :
    (db.rollback freshId).current = (db.current.parentStack).getD (.root freshId [] [])
    ∧ (∀ i es ds, (StackedDB.mk (.root i es ds)).rollback freshId
        = ⟨.root freshId [] []⟩)
    ∧ (∀ (A B : Edge) (rootId forkId freshId2 : String),
        ((((StackedDB.mk (.root rootId [A] [])).fork forkId).add_edge B).rollback
            freshId2).get_all_edges = [A.to_tuple]) := by
  refine ⟨?_, fun i es ds => rfl, fun A B rootId forkId freshId2 => ?_⟩
  · obtain ⟨cur⟩ := db
    cases cur <;> rfl
  · rfl

/-- Any sequence of write operations applied to a DB whose top is a child
stack only rewrites the top stack's `edges` and `deletions` fields. -/
lemma applyOps_child (ops : List DBOp) (i : String) (p : ImmutableStack)
    (es : List Edge) (ds : List String) :
    ∃ es' ds', StackedDB.applyOps ⟨.child i p es ds⟩ ops = ⟨.child i p es' ds'⟩ := by
  induction ops generalizing es ds with
  | nil => exact ⟨es, ds, rfl⟩
  | cons op rest ih =>
      cases op with
      | add e => exact ih (es ++ [e]) ds
      | remove x => exact ih es (ds ++ [x])

/-- C10: forking is side-effect free on the original: after any sequence of
`add_edge`/`remove_edge` operations on the fork, the fork's top stack still
has the original DB's current stack as its (unchanged) parent, so rolling
the fork back reads exactly the original DB's `get_all_edges()`. -/
theorem claim10_fork_frame (db : StackedDB) (forkId freshId : String)
    (ops : List DBOp) :
    ((db.fork forkId).applyOps ops).current.parentStack = some db.current
    ∧ (((db.fork forkId).applyOps ops).rollback freshId).get_all_edges
        = db.get_all_edges := by
  obtain ⟨es', ds', h⟩ := applyOps_child ops forkId db.current [] []
  have hf : db.fork forkId = (⟨.child forkId db.current [] []⟩ : StackedDB) := rfl
  rw [hf, h]
  exact ⟨rfl, rfl⟩

/-! Section: String helpers shared by `durability.py` and `workspace.py`

Python string operations are modelled on `List Char` (`String.data`):
`replace("\\", "/")` as a character map, the `in` operator as list-infix,
`split(sep)` for the non-self-overlapping separators used here via the
suffix after the last occurrence, and `split("/")` directly. -/

/-- Replacement of a backslash by a slash on one character (Python `str.replace("\\", "/")`). -/
def normChar (c : Char) : Char := if c = '\\' then '/' else c

/-- Python `path.replace("\\", "/")`. -/
def pyNormSlashes (s : String) : String := ⟨s.data.map normChar⟩

/-- Python `pat in s` (substring containment). -/
def strIn (pat s : String) : Bool := decide (pat.data <:+: s.data)

/-- The suffix of `s` after the last occurrence of `sep`; `none` when `sep`
does not occur.  For a separator without a nontrivial border (all
separators used below end in `/` and start with a letter or dot, so
occurrences cannot overlap) this equals Python's `s.split(sep)[-1]` when
`len(s.split(sep)) > 1`. -/
def afterLast (sep : List Char) : List Char → Option (List Char)
  | [] => none
  | c :: rest =>
      match afterLast sep rest with
      | some r => some r
      | none =>
          if sep <+: (c :: rest) then some ((c :: rest).drop sep.length)
          else none

/-- Python `s.split("/")`: never drops empty pieces, `"" ↦ [""]`. -/
def splitSlash : List Char → List (List Char)
  | [] => [[]]
  | c :: rest =>
      if c = '/' then [] :: splitSlash rest
      else
        match splitSlash rest with
        | [] => [[c]]
        | h :: t => (c :: h) :: t

/-- Python `"/".join(parts)`. -/
def joinSlash (parts : List (List Char)) : List Char :=
  List.intercalate ['/'] parts

/-! Section: Durability partitioner (`src/tldr/durability.py`) -/

/-- Python `DURABLE_PATTERNS` from `durability.py`. -/
def DURABLE_PATTERNS : List String :=
  ["node_modules/", ".venv/", "venv/", "vendor/", "__pycache__/",
   "site-packages/", ".tox/", "dist-packages/"]

/-- Python `is_durable` from `durability.py`: normalize separators, then test each
durable pattern for substring containment. -/
def is_durable (file_path : String) : Bool :=
  let normalized := pyNormSlashes file_path
  DURABLE_PATTERNS.any (fun pat => strIn pat normalized)

/-- The characters of `"node_modules/"`. -/
def nmSep : List Char := ("node_modules/").data

/-- The characters of `"site-packages/"`. -/
def spSep : List Char := ("site-packages/").data

/-- The characters of `"vendor/"`. -/
def vendSep : List Char := ("vendor/").data

/-- Python `PartitionedIndex._extract_package` from `durability.py`.  Each branch
guard `pattern in normalized` is rendered as `afterLast` returning `some`,
whose value is Python's `normalized.split(pattern)[-1]`. -/
def _extract_package (file_path : String) : String :=
  let normalized := (pyNormSlashes file_path).data
  match afterLast nmSep normalized with
  | some remainder =>
      let path_parts := splitSlash remainder
      let first := path_parts.headD []
      if first.headD ' ' = '@' ∧ 1 < path_parts.length then
        ⟨first ++ '/' :: path_parts.getD 1 []⟩
      else ⟨first⟩
  | none =>
  match afterLast spSep normalized with
  | some remainder => ⟨(splitSlash remainder).headD []⟩
  | none =>
  match afterLast vendSep normalized with
  | some remainder =>
      let path_parts := splitSlash remainder
      if 3 ≤ path_parts.length ∧ '.' ∈ path_parts.headD [] then
        ⟨joinSlash (path_parts.take 3)⟩
      else ⟨path_parts.headD []⟩
  | none => ⟨(splitSlash normalized).headD []⟩

/-- A resolved cross-file call edge `(src_file, src_func, dst_file,
dst_func)`. -/
abbrev RTuple := String × String × String × String

/-- Insertion into a Python `set` modelled as a duplicate-free-preserving
list insert. -/
def addToSet (l : List RTuple) (a : RTuple) : List RTuple :=
  if a ∈ l then l else l ++ [a]

/-- Python `dict` update `d[k] = v` on an association list. -/
def updAssoc {α : Type} : List (String × α) → String → α → List (String × α)
  | [], k, v => [(k, v)]
  | (k', v') :: rest, k, v =>
      if k' = k then (k, v) :: rest else (k', v') :: updAssoc rest k v

/-- Python `dict` lookup `d.get(k)` on an association list. -/
def lookupAssoc {α : Type} (l : List (String × α)) (k : String) : Option α :=
  (l.find? (fun kv => kv.1 == k)).map (·.2)

/-- Python `DurablePartition` from `durability.py`: `edges` is the `_edges` set
(exposed by the `edges` property), `edges_by_file` the `_edges_by_file`
per-source index. -/
structure DurablePartition where
  package_key : String
  edges : List RTuple
  edges_by_file : List (String × List RTuple)
deriving DecidableEq, Repr

/-- Python `DurablePartition.add_edge`. -/
def DurablePartition.add_edge (p : DurablePartition)
    (src_file src_func dst_file dst_func : String) : DurablePartition :=
  let edge : RTuple := (src_file, src_func, dst_file, dst_func)
  { p with
    edges := addToSet p.edges edge
    edges_by_file :=
      updAssoc p.edges_by_file src_file
        (addToSet ((lookupAssoc p.edges_by_file src_file).getD []) edge) }

/-- Python `ProjectCallGraph` from `cross_file_calls/core.py`: a set of edge
tuples. -/
structure ProjectCallGraph where
  edges : List RTuple
deriving DecidableEq, Repr

/-- Python `ProjectCallGraph.add_edge`. -/
def ProjectCallGraph.add_edge (g : ProjectCallGraph)
    (src_file src_func dst_file dst_func : String) : ProjectCallGraph :=
  ⟨addToSet g.edges (src_file, src_func, dst_file, dst_func)⟩

/-- Python `VolatilePartition` from `durability.py`: wraps a `ProjectCallGraph`. -/
structure VolatilePartition where
  graph : ProjectCallGraph
deriving DecidableEq, Repr

/-- Python `VolatilePartition.add_edge`. -/
def VolatilePartition.add_edge (v : VolatilePartition)
    (src_file src_func dst_file dst_func : String) : VolatilePartition :=
  ⟨v.graph.add_edge src_file src_func dst_file dst_func⟩

/-- Python `PartitionedIndex` from `durability.py`. -/
structure PartitionedIndex where
  durable : List (String × DurablePartition)
  volatile : VolatilePartition
deriving DecidableEq, Repr

/-- Python `PartitionedIndex.add_edge`: route by `is_durable(src_file)`; on the
durable side create the partition for the extracted package key if absent,
then add the edge to it. -/
def PartitionedIndex.add_edge (idx : PartitionedIndex)
    (src_file src_func dst_file dst_func : String) : PartitionedIndex :=
  if is_durable src_file then
    let package_key := _extract_package src_file
    let part := (lookupAssoc idx.durable package_key).getD
      ⟨package_key, [], []⟩
    { idx with
      durable := updAssoc idx.durable package_key
        (part.add_edge src_file src_func dst_file dst_func) }
  else
    { idx with
      volatile := idx.volatile.add_edge src_file src_func dst_file dst_func }

/-- Inserting into a set always yields membership. -/
lemma mem_addToSet_self (l : List RTuple) (a : RTuple) : a ∈ addToSet l a := by
  unfold addToSet
  split <;> simp_all

/-- A `dict` update makes the new binding visible. -/
lemma mem_updAssoc_self {α : Type} (l : List (String × α)) (k : String) (v : α) :
    (k, v) ∈ updAssoc l k v := by
  induction l with
  | nil => simp [updAssoc]
  | cons kv rest ih =>
      obtain ⟨k', v'⟩ := kv
      by_cases h : k' = k <;> simp [updAssoc, h, ih]

/-- C4: `PartitionedIndex.add_edge` stores the edge in exactly one
partition: `is_durable` holds iff one of the eight fixed substrings occurs
in the separator-normalized `src_file`; a durable edge lands in a durable
partition and leaves the volatile partition untouched; a volatile edge
lands in the volatile partition and leaves the durable map untouched. -/
theorem claim4_add_edge_routing (idx : PartitionedIndex)
    (sf sfn df dfn : String) :
    (is_durable sf = true ↔
      (("node_modules/").data <:+: (pyNormSlashes sf).data ∨
       (".venv/").data <:+: (pyNormSlashes sf).data ∨
       ("venv/").data <:+: (pyNormSlashes sf).data ∨
       ("vendor/").data <:+: (pyNormSlashes sf).data ∨
       ("__pycache__/").data <:+: (pyNormSlashes sf).data ∨
       ("site-packages/").data <:+: (pyNormSlashes sf).data ∨
       (".tox/").data <:+: (pyNormSlashes sf).data ∨
       ("dist-packages/").data <:+: (pyNormSlashes sf).data))
    ∧ (is_durable sf = true →
        (∃ part, (_extract_package sf, part) ∈ (idx.add_edge sf sfn df dfn).durable
            ∧ (sf, sfn, df, dfn) ∈ part.edges)
        ∧ (idx.add_edge sf sfn df dfn).volatile = idx.volatile)
    ∧ (is_durable sf = false →
        (sf, sfn, df, dfn) ∈ (idx.add_edge sf sfn df dfn).volatile.graph.edges
        ∧ (idx.add_edge sf sfn df dfn).durable = idx.durable) := by
  refine ⟨?_, fun h => ?_, fun h => ?_⟩
  · simp [is_durable, DURABLE_PATTERNS, strIn]
  · constructor
    · have hroute : (idx.add_edge sf sfn df dfn).durable
          = updAssoc idx.durable (_extract_package sf)
              (((lookupAssoc idx.durable (_extract_package sf)).getD
                ⟨_extract_package sf, [], []⟩).add_edge sf sfn df dfn) := by
        simp [PartitionedIndex.add_edge, h]
      refine ⟨((lookupAssoc idx.durable (_extract_package sf)).getD
          ⟨_extract_package sf, [], []⟩).add_edge sf sfn df dfn, ?_, ?_⟩
      · rw [hroute]
        exact mem_updAssoc_self _ _ _
      · exact mem_addToSet_self _ _
    · simp [PartitionedIndex.add_edge, h]
  · constructor
    · have hroute : (idx.add_edge sf sfn df dfn).volatile
          = idx.volatile.add_edge sf sfn df dfn := by
        simp [PartitionedIndex.add_edge, h]
      rw [hroute]
      exact mem_addToSet_self _ _
    · simp [PartitionedIndex.add_edge, h]

/-- Witness for C4 at concrete inputs: a durable add leaves the volatile
partition unchanged, and a volatile add is visible in the volatile graph. -/
theorem claim4_add_edge_routing_witness :
    ((PartitionedIndex.mk [] ⟨⟨[]⟩⟩).add_edge "node_modules/lodash/chunk.js"
        "chunk" "src/app.js" "main").volatile = (PartitionedIndex.mk [] ⟨⟨[]⟩⟩).volatile
    ∧ ("src/app.py", "f", "src/util.py", "g") ∈
        ((PartitionedIndex.mk [] ⟨⟨[]⟩⟩).add_edge "src/app.py" "f" "src/util.py"
          "g").volatile.graph.edges :=
  ⟨((claim4_add_edge_routing _ _ _ _ _).2.1 (by decide)).2,
   ((claim4_add_edge_routing _ _ _ _ _).2.2 (by decide)).1⟩

/-- Modelled from the spec: the package-key extraction rules of §4.5 as
worded.  "First component after the last `node_modules/`" (with
`@scope/name` when a scoped package name is followed by a component),
"first component after `site-packages/`", the Go-style `vendor/` rule
("first three components when the first contains a dot" — which presumes
three components exist — else the first component), otherwise the leading
path component. -/
def specPackageKey (path : String) : String :=
  let norm := (pyNormSlashes path).data
  match afterLast nmSep norm with
  | some rest =>
      match splitSlash rest with
      | [] => ""
      | [first] => ⟨first⟩
      | first :: second :: _ =>
          if first.headD ' ' = '@' then ⟨first ++ '/' :: second⟩ else ⟨first⟩
  | none =>
  match afterLast spSep norm with
  | some rest => ⟨(splitSlash rest).headD []⟩
  | none =>
  match afterLast vendSep norm with
  | some rest =>
      match splitSlash rest with
      | a :: b :: c :: _ => if '.' ∈ a then ⟨joinSlash [a, b, c]⟩ else ⟨a⟩
      | parts => ⟨parts.headD []⟩
  | none => ⟨(splitSlash norm).headD []⟩

/-- C5: `_extract_package` agrees with the spec's package-key rules on
every path, and in particular on the two spec examples
`node_modules/@types/react/index.d.ts ↦ @types/react` and
`vendor/github.com/pkg/errors/errors.go ↦ github.com/pkg/errors`. -/
theorem claim5_extract_package :
    (∀ p, _extract_package p = specPackageKey p)
    ∧ _extract_package "node_modules/@types/react/index.d.ts" = "@types/react"
    ∧ _extract_package "vendor/github.com/pkg/errors/errors.go"
        = "github.com/pkg/errors" := by
  refine ⟨fun p => ?_, by decide, by decide⟩
  cases hnm : afterLast nmSep ((pyNormSlashes p).data) with
  | some rest =>
      cases hs : splitSlash rest with
      | nil => simp [_extract_package, specPackageKey, hnm, hs]
      | cons first tl =>
          cases tl with
          | nil => simp [_extract_package, specPackageKey, hnm, hs]
          | cons second tl2 =>
              have hlen : 1 < (first :: second :: tl2).length := by
                simp only [List.length_cons]; omega
              by_cases hat : first.headD ' ' = '@' <;>
                simp [_extract_package, specPackageKey, hnm, hs, hat, hlen]
  | none =>
      cases hsp : afterLast spSep ((pyNormSlashes p).data) with
      | some rest => simp [_extract_package, specPackageKey, hnm, hsp]
      | none =>
          cases hv : afterLast vendSep ((pyNormSlashes p).data) with
          | some rest =>
              match hs : splitSlash rest with
              | [] => simp [_extract_package, specPackageKey, hnm, hsp, hv, hs]
              | [a] => simp [_extract_package, specPackageKey, hnm, hsp, hv, hs]
              | [a, b] => simp [_extract_package, specPackageKey, hnm, hsp, hv, hs]
              | a :: b :: c :: tl =>
                  have hlen : 3 ≤ (a :: b :: c :: tl).length := by
                    simp only [List.length_cons]; omega
                  by_cases hdot : '.' ∈ a <;>
                    simp [_extract_package, specPackageKey, hnm, hsp, hv, hs,
                      hdot, hlen]
          | none => simp [_extract_package, specPackageKey, hnm, hsp, hv]

/-! Section: Workspace filter (`src/tldr/workspace.py`)

`_matches_any_pattern` calls `fnmatch.fnmatch`.  CPython's `fnmatch`
translates the glob into a regex (`*` ↦ `.*`, `?` ↦ `.`, `[...]` ↦ a
character class, everything else literal, case-mapping is the identity on
POSIX) and tests a full match.  That is embedded here as a token compiler
(`compilePat`, following `fnmatch.translate`'s scan, including its
bracket-delimiting rules) plus a matcher (`gmatch`) in which `*`
nondeterministically consumes any prefix — the declarative reading of the
greedy regex under full-match semantics. -/

/-- One compiled glob token. -/
inductive GTok : Type where
  | star : GTok
  | any : GTok
  | lit (c : Char) : GTok
  | cls (stuff : List Char) : GTok
deriving DecidableEq, Repr

/-- Scan to the first unescaped `]`; `none` when the class is
unterminated. -/
def scanClassAux : List Char → Option (List Char × List Char)
  | [] => none
  | ']' :: rest => some ([], rest)
  | c :: rest => (scanClassAux rest).map (fun pr => (c :: pr.1, pr.2))

/-- Delimit a bracket class the way `fnmatch.translate` does: an optional
leading `!`, then an optional literal `]`, then everything up to the next
`]`. -/
def scanClass : List Char → Option (List Char × List Char)
  | '!' :: ']' :: rest =>
      (scanClassAux rest).map (fun pr => ('!' :: ']' :: pr.1, pr.2))
  | '!' :: rest => (scanClassAux rest).map (fun pr => ('!' :: pr.1, pr.2))
  | ']' :: rest => (scanClassAux rest).map (fun pr => (']' :: pr.1, pr.2))
  | p => scanClassAux p

/-- Membership of a character in the body of a bracket class (ranges
`a-b`, otherwise literals). -/
def classMatch : List Char → Char → Bool
  | [], _ => false
  | a :: '-' :: b :: rest, c =>
      (decide (a ≤ c) && decide (c ≤ b)) || classMatch rest c
  | a :: rest, c => decide (a = c) || classMatch rest c

/-- Bracket-class test including the leading-`!` negation. -/
def classMatches (stuff : List Char) (c : Char) : Bool :=
  match stuff with
  | '!' :: rest => !(classMatch rest c)
  | _ => classMatch stuff c

/-- Glob-to-token compiler; `fuel` is an upper bound on the number of
tokens (the pattern length suffices, since every token consumes at least
one pattern character). -/
def compilePatAux : Nat → List Char → List GTok
  | 0, _ => []
  | _ + 1, [] => []
  | fuel + 1, c :: p =>
      if c = '*' then .star :: compilePatAux fuel p
      else if c = '?' then .any :: compilePatAux fuel p
      else if c = '[' then
        match scanClass p with
        | none => .lit '[' :: compilePatAux fuel p
        | some (stuff, rest) => .cls stuff :: compilePatAux fuel rest
      else .lit c :: compilePatAux fuel p

/-- Compile a glob pattern to tokens. -/
def compilePat (p : List Char) : List GTok := compilePatAux p.length p

/-- Token matcher: `star` consumes an arbitrary prefix (any suffix of the
input may be matched by the rest), `any` consumes one character, `lit` and
`cls` test one character. -/
def gmatch : List GTok → List Char → Bool
  | [], s => s.isEmpty
  | .star :: p, s => s.tails.any (fun t => gmatch p t)
  | .any :: p, s =>
      match s with
      | [] => false
      | _ :: s2 => gmatch p s2
  | .lit c :: p, s =>
      match s with
      | [] => false
      | d :: s2 => decide (d = c) && gmatch p s2
  | .cls stuff :: p, s =>
      match s with
      | [] => false
      | d :: s2 => classMatches stuff d && gmatch p s2

/-- Python `fnmatch.fnmatch(path, pattern)`. -/
def pyFnmatch (path pattern : String) : Bool :=
  gmatch (compilePat pattern.data) path.data

/-- Python `part.rstrip("*")`. -/
def rstripStar (l : List Char) : List Char :=
  (l.reverse.dropWhile (fun c => decide (c = '*'))).reverse

/-- Python `_matches_any_pattern` from `workspace.py`: for each pattern, try
`fnmatch` first; for a pattern containing `**`, additionally take each
slash-separated component that is neither empty nor `**` nor `*`, strip
its trailing `*`s, and test whether that directory name starts the path,
occurs surrounded by slashes, or equals the whole path. -/
def _matches_any_pattern (path : String) (patterns : List String) : Bool :=
  patterns.any fun pattern =>
    pyFnmatch path pattern ||
    (strIn "**" pattern &&
      (splitSlash pattern.data).any fun part =>
        if part ≠ [] ∧ part ≠ ['*', '*'] ∧ part ≠ ['*'] then
          let dir_name := rstripStar part
          if dir_name ≠ [] then
            decide ((dir_name ++ ['/']) <+: path.data) ||
            decide (('/' :: (dir_name ++ ['/'])) <:+: path.data) ||
            decide (path.data = dir_name)
          else false
        else false)

/-- Python `_normalize_path` from `workspace.py`: backslashes to slashes, strip a
leading `./`, strip trailing slashes. -/
def _normalize_path (path : String) : String :=
  let p1 := (pyNormSlashes path).data
  let p2 := if ['.', '/'] <+: p1 then p1.drop 2 else p1
  ⟨(p2.reverse.dropWhile (fun c => decide (c = '/'))).reverse⟩

/-- Python `WorkspaceConfig` from `workspace.py`. -/
structure WorkspaceConfig where
  active_packages : List String
  exclude_patterns : List String
deriving DecidableEq, Repr

/-- Python `_is_under_active_package` from `workspace.py`. -/
def _is_under_active_package (path : String) (active_packages : List String) :
    Bool :=
  active_packages.any fun pkg =>
    let pkg_normalized := _normalize_path pkg
    decide (path = pkg_normalized) ||
      decide ((pkg_normalized.data ++ ['/']) <+: path.data)

/-- Python `should_include_path` from `workspace.py`. -/
def should_include_path (path : String) (config : WorkspaceConfig) : Bool :=
  let normalized_path := _normalize_path path
  if config.active_packages ≠ [] ∧
      _is_under_active_package normalized_path config.active_packages = false
  then false
  else if config.exclude_patterns ≠ [] ∧
      _matches_any_pattern normalized_path config.exclude_patterns = true
  then false
  else true

/-- The exclude pattern `**/<name>/**`. -/
def mkSegPattern (name : String) : String := "**/" ++ name ++ "/**"

lemma mkSegPattern_data (name : String) :
    (mkSegPattern name).data
      = '*' :: '*' :: '/' :: (name.data ++ ['/', '*', '*']) := by
  have h1 : ("**/").data = ['*', '*', '/'] := rfl
  have h2 : ("/**").data = ['/', '*', '*'] := rfl
  simp [mkSegPattern, String.data_append, h1, h2]

/-- On a pattern without `[` and `?`, the compiler sends `*` to `star` and
everything else to a literal token. -/
lemma compilePatAux_no_special (fuel : Nat) (p : List Char)
    (hfuel : p.length ≤ fuel) (h : ∀ c ∈ p, c ≠ '[' ∧ c ≠ '?') :
    compilePatAux fuel p
      = p.map (fun c => if c = '*' then GTok.star else GTok.lit c) := by
  induction fuel generalizing p with
  | zero =>
      cases p with
      | nil => rfl
      | cons c rest => simp at hfuel
  | succ fuel ih =>
      cases p with
      | nil => rfl
      | cons c rest =>
          have hc := h c (by simp)
          have hr : ∀ x ∈ rest, x ≠ '[' ∧ x ≠ '?' :=
            fun x hx => h x (by simp [hx])
          have hfr : rest.length ≤ fuel := by
            simp only [List.length_cons] at hfuel; omega
          by_cases hstar : c = '*'
          · subst hstar
            simp [compilePatAux, ih rest hfr hr]
          · simp [compilePatAux, hstar, hc.1, hc.2, ih rest hfr hr]

/-- A `star` token matches iff the rest matches some suffix. -/
lemma gmatch_star_iff (p : List GTok) (s : List Char) :
    gmatch (.star :: p) s = true ↔ ∃ t, t <:+ s ∧ gmatch p t = true := by
  simp [gmatch, List.any_eq_true, List.mem_tails]

/-- A run of literal tokens matches iff it is a prefix and the rest
matches the remainder. -/
lemma gmatch_lits_iff (L : List Char) (p : List GTok) (s : List Char) :
    gmatch (L.map GTok.lit ++ p) s = true ↔
      L <+: s ∧ gmatch p (s.drop L.length) = true := by
  induction L generalizing s with
  | nil => simp
  | cons c L ih =>
      cases s with
      | nil => simp [gmatch]
      | cons d s2 =>
          have hg : gmatch ((c :: L).map GTok.lit ++ p) (d :: s2)
              = (decide (d = c) && gmatch (L.map GTok.lit ++ p) s2) := rfl
          rw [hg, Bool.and_eq_true, decide_eq_true_eq, ih,
            List.cons_prefix_cons]
          constructor
          · rintro ⟨h1, h2, h3⟩
            exact ⟨⟨h1.symm, h2⟩, by simpa using h3⟩
          · rintro ⟨⟨h1, h2⟩, h3⟩
            exact ⟨h1.symm, h2, by simpa using h3⟩

/-- A trailing `**` matches anything. -/
lemma gmatch_star_star (s : List Char) : gmatch [.star, .star] s = true := by
  rw [show ([GTok.star, GTok.star] : List GTok) = .star :: [GTok.star] from rfl,
    gmatch_star_iff]
  refine ⟨[], List.nil_suffix, ?_⟩
  rw [gmatch_star_iff]
  exact ⟨[], List.suffix_refl _, rfl⟩

/-- Python `fnmatch` on the pattern `**/<name>/**` (for a glob-free `name`) holds
exactly when `/<name>/` occurs inside the path. -/
lemma pyFnmatch_seg_iff (name path : String)
    (hstar : '*' ∉ name.data) (hq : '?' ∉ name.data) (hb : '[' ∉ name.data) :
    (pyFnmatch path (mkSegPattern name) = true ↔
      ('/' :: (name.data ++ ['/'])) <:+: path.data) := by
  have hdata := mkSegPattern_data name
  have hnosp : ∀ c ∈ (mkSegPattern name).data, c ≠ '[' ∧ c ≠ '?' := by
    intro c hc
    have hform : c = '*' ∨ c = '/' ∨ c ∈ name.data := by
      rw [hdata] at hc
      simp only [List.mem_cons, List.mem_append, List.not_mem_nil,
        or_false] at hc
      tauto
    rcases hform with rfl | rfl | hmem
    · exact ⟨by decide, by decide⟩
    · exact ⟨by decide, by decide⟩
    · exact ⟨fun e => hb (e ▸ hmem), fun e => hq (e ▸ hmem)⟩
  have hmapname : name.data.map (fun c => if c = '*' then GTok.star else GTok.lit c)
      = name.data.map GTok.lit :=
    List.map_congr_left (fun c hcm => by
      have : c ≠ '*' := fun e => hstar (e ▸ hcm)
      simp [this])
  have hcomp : compilePat (mkSegPattern name).data
      = GTok.star :: GTok.star :: GTok.lit '/'
          :: (name.data.map GTok.lit ++ [GTok.lit '/', GTok.star, GTok.star]) := by
    unfold compilePat
    rw [compilePatAux_no_special _ _ le_rfl hnosp, hdata]
    simp [hmapname]
  have hlits : ∀ u : List Char,
      (gmatch ((('/' :: (name.data ++ ['/'])).map GTok.lit)
          ++ [GTok.star, GTok.star]) u = true)
        ↔ (('/' :: (name.data ++ ['/'])) <+: u
            ∧ gmatch [GTok.star, GTok.star]
                (u.drop ('/' :: (name.data ++ ['/'])).length) = true) :=
    fun u => gmatch_lits_iff _ _ u
  constructor
  · intro h
    rw [pyFnmatch, hcomp, gmatch_star_iff] at h
    obtain ⟨t, hts, ht⟩ := h
    rw [gmatch_star_iff] at ht
    obtain ⟨u, hut, hu⟩ := ht
    have hu2 : gmatch ((('/' :: (name.data ++ ['/'])).map GTok.lit)
        ++ [GTok.star, GTok.star]) u = true := by
      simpa [List.map_append] using hu
    rw [hlits] at hu2
    exact List.infix_iff_prefix_suffix.mpr ⟨u, hu2.1, hut.trans hts⟩
  · intro h
    obtain ⟨u, hpre, hsuf⟩ := List.infix_iff_prefix_suffix.mp h
    rw [pyFnmatch, hcomp, gmatch_star_iff]
    refine ⟨u, hsuf, ?_⟩
    rw [gmatch_star_iff]
    refine ⟨u, List.suffix_refl u, ?_⟩
    have hu2 : gmatch ((('/' :: (name.data ++ ['/'])).map GTok.lit)
        ++ [GTok.star, GTok.star]) u = true := by
      rw [hlits]
      exact ⟨hpre, gmatch_star_star _⟩
    simpa [List.map_append] using hu2

/-- Splitting on `/` peels off a slash-free leading chunk. -/
lemma splitSlash_append_slash (a b : List Char) (h : '/' ∉ a) :
    splitSlash (a ++ '/' :: b) = a :: splitSlash b := by
  induction a with
  | nil => simp [splitSlash]
  | cons c a ih =>
      have hc : c ≠ '/' := fun e => h (by simp [e])
      have ih' := ih (fun hx => h (List.mem_cons_of_mem _ hx))
      simp [splitSlash, hc, ih']

/-- Stripping trailing stars from a star-free string is the identity. -/
lemma rstripStar_no_star (l : List Char) (h : '*' ∉ l) : rstripStar l = l := by
  unfold rstripStar
  have hd : l.reverse.dropWhile (fun c => decide (c = '*')) = l.reverse := by
    cases hr : l.reverse with
    | nil => rfl
    | cons c t =>
        have hc : c ≠ '*' := by
          intro e
          apply h
          have hcmem : c ∈ l.reverse := by rw [hr]; simp
          rw [List.mem_reverse] at hcmem
          exact e ▸ hcmem
        simp [List.dropWhile_cons, hc]
  rw [hd, List.reverse_reverse]

/-- Python `_is_under_active_package` unfolded to its existential reading. -/
lemma is_under_iff (p : String) (l : List String) :
    _is_under_active_package p l = true ↔
      ∃ pkg ∈ l, p = _normalize_path pkg ∨
        ((_normalize_path pkg).data ++ ['/']) <+: p.data := by
  simp [_is_under_active_package, List.any_eq_true]

/-- C6 (counterexample): `node_modules` occurs as a whole path segment of
`src/node_modules` (its final segment), yet the pattern
`**/node_modules/**` does not match that path. -/
theorem claim6_counterexample :
    ("node_modules").data ∈ splitSlash (("src/node_modules").data)
    ∧ _matches_any_pattern "src/node_modules" ["**/node_modules/**"] = false := by
  decide

/-- C6 (amended): `should_include_path` returns `True` iff (a)
`active_packages` is empty or the normalized path equals or is rooted
under one of them (normalized), and (b) no exclude pattern matches the
normalized path; and for every pattern of the form `**/<name>/**` with
`name` nonempty and free of `/` and glob metacharacters, the pattern
matches a path iff the path equals `<name>`, starts with `<name>/`, or
contains `/<name>/` — i.e. `<name>` occurs as a whole segment that is not
the final segment of a longer path. -/
theorem claim6_should_include_amended :
    (∀ (path : String) (config : WorkspaceConfig),
      should_include_path path config = true ↔
        ((config.active_packages = [] ∨
            ∃ pkg ∈ config.active_packages,
              _normalize_path path = _normalize_path pkg ∨
                ((_normalize_path pkg).data ++ ['/']) <+:
                  (_normalize_path path).data)
          ∧ _matches_any_pattern (_normalize_path path)
              config.exclude_patterns = false))
    ∧ (∀ (name path : String), name.data ≠ [] → '*' ∉ name.data →
        '?' ∉ name.data → '[' ∉ name.data → '/' ∉ name.data →
        (_matches_any_pattern path [mkSegPattern name] = true ↔
          (path = name ∨ ((name.data ++ ['/']) <+: path.data) ∨
            (('/' :: (name.data ++ ['/'])) <:+: path.data)))) := by
  constructor
  · intro path config
    simp only [should_include_path]
    split_ifs with h1 h2
    · constructor
      · intro h; exact absurd h (by simp)
      · rintro ⟨ha, _⟩
        rcases ha with ha | ha
        · exact absurd ha h1.1
        · have hu := (is_under_iff (_normalize_path path)
            config.active_packages).mpr ha
          rw [h1.2] at hu
          exact absurd hu (by simp)
    · constructor
      · intro h; exact absurd h (by simp)
      · rintro ⟨_, hb2⟩
        rw [h2.2] at hb2
        exact absurd hb2 (by simp)
    · refine iff_of_true rfl ⟨?_, ?_⟩
      · by_cases hA : config.active_packages = []
        · exact Or.inl hA
        · right
          have hu : _is_under_active_package (_normalize_path path)
              config.active_packages = true := by
            rcases Bool.eq_false_or_eq_true
              (_is_under_active_package (_normalize_path path)
                config.active_packages) with ht | hf
            · exact ht
            · exact absurd ⟨hA, hf⟩ h1
          exact (is_under_iff _ _).mp hu
      · by_cases hE : config.exclude_patterns = []
        · rw [hE]; rfl
        · rcases Bool.eq_false_or_eq_true
            (_matches_any_pattern (_normalize_path path)
              config.exclude_patterns) with ht | hf
          · exact absurd ⟨hE, ht⟩ h2
          · exact hf
  · intro name path hne hstar hq hb hs
    have hfn := pyFnmatch_seg_iff name path hstar hq hb
    have hparts : splitSlash (mkSegPattern name).data
        = [['*', '*'], name.data, ['*', '*']] := by
      rw [mkSegPattern_data]
      have h2 : ('*' :: '*' :: '/' :: (name.data ++ ['/', '*', '*']))
          = ['*', '*'] ++ '/' :: (name.data ++ '/' :: ['*', '*']) := by simp
      rw [h2, splitSlash_append_slash _ _ (by decide),
        splitSlash_append_slash _ _ hs]
      rfl
    have hin : strIn "**" (mkSegPattern name) = true := by
      unfold strIn
      rw [decide_eq_true_eq, mkSegPattern_data]
      exact ⟨[], '/' :: (name.data ++ ['/', '*', '*']), rfl⟩
    have hrstrip := rstripStar_no_star name.data hstar
    have hne2 : name.data ≠ ['*', '*'] := fun e => hstar (by rw [e]; simp)
    have hne3 : name.data ≠ ['*'] := fun e => hstar (by rw [e]; simp)
    simp only [_matches_any_pattern, List.any_cons, List.any_nil,
      Bool.or_false, hin, Bool.true_and, hparts, hrstrip, hne, hne2, hne3,
      ne_eq, not_false_eq_true, and_self, if_true, if_false,
      not_true_eq_false, and_false, false_and, Bool.or_eq_true,
      decide_eq_true_eq, hfn, String.ext_iff]
    tauto

/-- Witness for C6 (amended) at a concrete input: `**/node_modules/**`
matches `a/node_modules/b`. -/
theorem claim6_should_include_amended_witness :
    _matches_any_pattern "a/node_modules/b" ["**/node_modules/**"] = true := by
  have h := claim6_should_include_amended.2 "node_modules" "a/node_modules/b"
    (by decide) (by decide) (by decide) (by decide) (by decide)
  have hp : mkSegPattern "node_modules" = "**/node_modules/**" := by decide
  rw [hp] at h
  exact h.mpr (Or.inr (Or.inr (by decide)))

/-! Section: Daemon (`src/tldr/daemon.py`) -/

/-- A JSON scalar as used in the daemon's responses. -/
inductive JVal : Type where
  | str (s : String)
  | nat (n : Nat)
  | bool (b : Bool)
deriving DecidableEq, Repr

/-- A JSON object: ordered key/value pairs. -/
abbrev JObj := List (String × JVal)

/-- The values `TLDRDaemon.run` passes to `write_status`, in program
order: `"indexing"` right after the PID file is written, `"ready"` once
the socket is created (skipped when socket creation raises), and
`"stopped"` in the `finally` block on every exit path of the serve loop. -/
def run_status_writes (socket_ok : Bool) : List String :=
  if socket_ok then ["indexing", "ready", "stopped"]
  else ["indexing", "stopped"]

/-- The four status-file values §6 of the spec lists. -/
def SPEC_STATUS_VALUES : List String :=
  ["initializing", "ready", "shutting_down", "stopped"]

/-- C7 (counterexample): the daemon's very first status-file write is
`"indexing"`, which is not one of the four claimed values (the in-memory
`_status` starts as `"initializing"` but is never written to the file, and
`"shutting_down"` only ever appears in the `shutdown` command's reply). -/
theorem claim7_counterexample :
    "indexing" ∈ run_status_writes true
    ∧ "indexing" ∉ SPEC_STATUS_VALUES := by
  decide

/-- C7 (amended): every value the daemon writes to the `.tldr/status` file
over its lifecycle is one of `indexing`, `ready`, `stopped`, mirroring the
state machine indexing → ready → stopped. -/
theorem claim7_status_writes_amended (b : Bool) (s : String)
    (h : s ∈ run_status_writes b) : s ∈ ["indexing", "ready", "stopped"] := by
  cases b <;> simp only [run_status_writes, if_true, if_false,
    List.mem_cons, List.not_mem_nil, or_false, Bool.false_eq_true] at h <;>
    simp [List.mem_cons] <;> tauto

/-- Witness for C7 (amended): `"ready"` from the successful lifecycle. -/
theorem claim7_status_writes_amended_witness :
    "ready" ∈ ["indexing", "ready", "stopped"] :=
  claim7_status_writes_amended true "ready" (by decide)

/-- The semantic-search configuration fields `_handle_notify` reads
(`_load_semantic_config` defaults: enabled, threshold 20). -/
structure SemanticConfig where
  enabled : Bool
  auto_reindex_threshold : Nat
deriving DecidableEq, Repr

/-- The default semantic config of `_load_semantic_config`. -/
def defaultSemanticConfig : SemanticConfig := ⟨true, 20⟩

/-- The daemon state touched by `_handle_notify`: the dirty-file set and
count, the reindex-in-flight flag, and the loaded semantic config. -/
structure DaemonNotifyState where
  dirty_files : List String
  dirty_count : Nat
  reindex_in_progress : Bool
  semantic_config : SemanticConfig
deriving DecidableEq, Repr

/-- Python `TLDRDaemon._trigger_background_reindex`: no-op when a reindex is in
flight, otherwise sets the in-flight flag and spawns the worker thread
(whose later reset of the dirty set is asynchronous and outside this
synchronous model). -/
def _trigger_background_reindex (st : DaemonNotifyState) : DaemonNotifyState :=
  if st.reindex_in_progress then st
  else { st with reindex_in_progress := true }

/-- Python `TLDRDaemon._handle_notify`: reject a missing/empty `file`; when
semantic search is disabled answer `{status: ok, semantic_enabled: false}`
without tracking; otherwise add the path to the dirty set (bumping the
count only when new), decide whether to trigger a background reindex
(count reached threshold and none in flight), and reply with the dirty
count, threshold and trigger flag.  The Salsa cache notification the
Python code also performs does not touch any of this state and is
elided. -/
def _handle_notify (st : DaemonNotifyState) (file : Option String) :
    DaemonNotifyState × JObj :=
  match file with
  | none =>
      (st, [("status", .str "error"),
            ("message", .str "Missing required parameter: file")])
  | some f =>
      if f = "" then
        (st, [("status", .str "error"),
              ("message", .str "Missing required parameter: file")])
      else if st.semantic_config.enabled = false then
        (st, [("status", .str "ok"), ("semantic_enabled", .bool false)])
      else
        let st1 := if f ∈ st.dirty_files then st
          else { st with dirty_files := st.dirty_files ++ [f],
                         dirty_count := st.dirty_count + 1 }
        let threshold := st1.semantic_config.auto_reindex_threshold
        let should_reindex :=
          decide (threshold ≤ st1.dirty_count) && !st1.reindex_in_progress
        let st2 :=
          if should_reindex then _trigger_background_reindex st1 else st1
        (st2, [("status", .str "ok"),
               ("dirty_count", .nat st1.dirty_count),
               ("threshold", .nat threshold),
               ("reindex_triggered", .bool should_reindex)])

/-- C8: for a notify request carrying a (nonempty) file path, on a daemon
with semantic search enabled: the path joins the dirty set, the count goes
up exactly when the path was new, the reindex trigger fires (setting the
in-flight flag) iff the post-add count reached the threshold and no
reindex was in flight, the ok response carries exactly the fields
`status`, `dirty_count`, `threshold`, `reindex_triggered`, and the default
configuration's threshold is 20. -/
theorem claim8_notify (st : DaemonNotifyState) (f : String)
    (hen : st.semantic_config.enabled = true) (hf : f ≠ "") :
    (f ∈ (_handle_notify st (some f)).1.dirty_files)
    ∧ ((_handle_notify st (some f)).1.dirty_count
        = if f ∈ st.dirty_files then st.dirty_count else st.dirty_count + 1)
    ∧ ((_handle_notify st (some f)).1.reindex_in_progress
        = (st.reindex_in_progress ||
            (decide (st.semantic_config.auto_reindex_threshold ≤
                (if f ∈ st.dirty_files then st.dirty_count
                 else st.dirty_count + 1))
              && !st.reindex_in_progress)))
    ∧ ((_handle_notify st (some f)).2
        = [("status", JVal.str "ok"),
           ("dirty_count", JVal.nat
              (if f ∈ st.dirty_files then st.dirty_count
               else st.dirty_count + 1)),
           ("threshold", JVal.nat st.semantic_config.auto_reindex_threshold),
           ("reindex_triggered", JVal.bool
              (decide (st.semantic_config.auto_reindex_threshold ≤
                  (if f ∈ st.dirty_files then st.dirty_count
                   else st.dirty_count + 1))
                && !st.reindex_in_progress))])
    ∧ defaultSemanticConfig.auto_reindex_threshold = 20 := by
  by_cases hmem : f ∈ st.dirty_files <;>
    cases hri : st.reindex_in_progress <;>
      simp [_handle_notify, _trigger_background_reindex, hen, hf, hmem, hri,
        defaultSemanticConfig] <;>
      split <;> simp_all

/-- Witness for C8 at a concrete state: the 20th distinct dirty file on a
default-configured daemon triggers the reindex and the response carries
the four fields. -/
theorem claim8_notify_witness :
    ("a.py" ∈
      (_handle_notify ⟨[], 19, false, ⟨true, 20⟩⟩ (some "a.py")).1.dirty_files)
    ∧ (_handle_notify ⟨[], 19, false, ⟨true, 20⟩⟩ (some "a.py")).2
        = [("status", JVal.str "ok"), ("dirty_count", JVal.nat 20),
           ("threshold", JVal.nat 20), ("reindex_triggered", JVal.bool true)] := by
  have h := claim8_notify ⟨[], 19, false, ⟨true, 20⟩⟩ "a.py" rfl (by decide)
  refine ⟨h.1, Eq.trans h.2.2.2.1 (by decide)⟩

/-- The keys of the `handlers` dict in `TLDRDaemon.handle_command`. -/
def KNOWN_COMMANDS : List String :=
  ["ping", "status", "shutdown", "search", "extract", "impact", "dead",
   "arch", "cfg", "dfg", "slice", "calls", "warm", "semantic", "tree",
   "structure", "context", "imports", "importers", "notify", "diagnostics",
   "change_impact"]

/-- Python `command.get("cmd", "")` for a string-valued `cmd` field. -/
def getCmd (command : JObj) : String :=
  match lookupAssoc command "cmd" with
  | some (.str s) => s
  | _ => ""

/-- Python `TLDRDaemon.handle_command`: dispatch on the `cmd` field through the
`handlers` dict — represented by the abstract per-command handler `exec` —
and answer the unknown-command error otherwise.  (The `last_query`
timestamp update carries no claim-relevant information.) -/
def handle_command (exec : String → JObj → JObj) (command : JObj) : JObj :=
  let cmd := getCmd command
  if cmd ∈ KNOWN_COMMANDS then exec cmd command
  else [("status", .str "error"),
        ("message", .str ("Unknown command: " ++ cmd))]

/-- The response part of `TLDRDaemon._handle_one_connection`: the payload
is parsed by `json.loads` (library code, represented here by its result);
a parse failure produces the `Invalid JSON:` error reply, success
dispatches to `handle_command`. -/
def connection_response (exec : String → JObj → JObj)
    (parsed : Except String JObj) : JObj :=
  match parsed with
  | .error e =>
      [("status", .str "error"), ("message", .str ("Invalid JSON: " ++ e))]
  | .ok command => handle_command exec command

/-- C9: an unrecognised `cmd` yields `{status: error, message: "Unknown
command: X"}` for the given `X`, and a payload that fails JSON parsing
yields `{status: error, message}` with the message beginning
`"Invalid JSON:"` — in both cases a value is returned, never an
exception raised (totality of these functions). -/
theorem claim9_error_replies (exec : String → JObj → JObj) (command : JObj)
    (e : String) (h : getCmd command ∉ KNOWN_COMMANDS) :
    handle_command exec command
      = [("status", JVal.str "error"),
         ("message", JVal.str ("Unknown command: " ++ getCmd command))]
    ∧ connection_response exec (.error e)
      = [("status", JVal.str "error"),
         ("message", JVal.str ("Invalid JSON: " ++ e))]
    ∧ ("Invalid JSON: ").data <+: ("Invalid JSON: " ++ e).data := by
  refine ⟨?_, rfl, ?_⟩
  · simp [handle_command, h]
  · rw [String.data_append]
    exact List.prefix_append _ _

/-- Witness for C9 at a concrete unknown command. -/
theorem claim9_error_replies_witness :
    handle_command (fun _ _ => []) [("cmd", JVal.str "frobnicate")]
      = [("status", JVal.str "error"),
         ("message", JVal.str "Unknown command: frobnicate")] := by
  have h := (claim9_error_replies (fun _ _ => [])
    [("cmd", JVal.str "frobnicate")] "x" (by decide)).1
  exact h.trans (by decide)

end TLDR
